import Mathlib

/-!
Verification development for the zhang plain-text accounting engine.

The Rust sources embedded here:
  * `src/p.rs`              — the pest-consume handlers of the zhang grammar
                              (`ZhangParser::transaction`, `transaction_posting`,
                              `date_only`, metadata handling, …)
  * `src/core/ledger.rs`    — the loader (`Ledger::load_with_database`),
                              `Ledger::sort_directives_datetime` and
                              `Ledger::is_transaction_balanced`
  * `avaro/src/models.rs`   — the older avaro dialect's directive model
                              (`Transaction::from_parser`)

`BigDecimal` is modelled by `ℚ` (arbitrary precision, exact).  `HashMap` is
modelled by an association list with replace-on-insert semantics.  `PathBuf`
is modelled by its list of components.  Parts of the repository that are not
in the extracted sources (the pest grammar file, `core/data.rs`,
`core/models.rs`, `core/utils/bigdecimal_ext.rs`, the sqlite read model) are
modelled from the specification; each such definition carries a doc comment
starting with `Modelled from the spec:`.
-/

namespace Zhang

/-- String kind from `core/models.rs` as used by `p.rs`: quoted (payload is
the unescaped content) or unquoted bareword. -/
inductive ZhangString
  | QuoteString (s : String)
  | UnquoteString (s : String)
deriving DecidableEq, Repr

/-- Embeds `ZhangString::to_plain_string`: the payload. -/
def ZhangString.to_plain_string : ZhangString → String
  | .QuoteString s => s
  | .UnquoteString s => s

/-- Transaction flag (`core/models.rs`): `*` complete, `!` incomplete. -/
inductive Flag
  | Complete
  | Incomplete
deriving DecidableEq, Repr

/-- The five account kinds (`core/account.rs`). -/
inductive AccountType
  | Assets
  | Liabilities
  | Equity
  | Income
  | Expenses
deriving DecidableEq, Repr

/-- Account as built by `ZhangParser::account_name` (p.rs): kind, canonical
text form, and the tail segments. -/
structure Account where
  account_type : AccountType
  content : String
  components : List String
deriving DecidableEq, Repr

/-- Amount: decimal (BigDecimal, modelled by `ℚ`) together with a commodity. -/
structure Amount where
  number : ℚ
  currency : String
deriving DecidableEq, Repr

/-- Tagged date from `core/data.rs`: `Date(Y-M-D)`, `DateHour(Y-M-D h:m)` or
`Datetime(Y-M-D h:m:s)`. -/
inductive Date
  | Date (y m d : ℕ)
  | DateHour (y m d h mi : ℕ)
  | Datetime (y m d h mi s : ℕ)
deriving DecidableEq, Repr

/-- Modelled from the spec: the wall-clock instant of a `Date`
(`Date` = midnight, `DateHour` = :00 seconds); `core/data.rs` is not in the
extracted sources.  The encoding is strictly monotone in calendar order, which
is all the ordering comparisons need. -/
def Date.naive_datetime : Zhang.Date → ℕ
  | .Date y m d => ((((y * 13 + m) * 32 + d) * 24 + 0) * 60 + 0) * 60 + 0
  | .DateHour y m d h mi => ((((y * 13 + m) * 32 + d) * 24 + h) * 60 + mi) * 60 + 0
  | .Datetime y m d h mi s => ((((y * 13 + m) * 32 + d) * 24 + h) * 60 + mi) * 60 + s

/-- Per-unit (`@`) or total (`@@`) price spec (`core/models.rs`). -/
inductive SingleTotalPrice
  | Single (a : Amount)
  | Total (a : Amount)
deriving DecidableEq, Repr

/-- Metadata map as the zhang `Transaction` holds it: a `HashMap<String,
ZhangString>` modelled as an association list with unique keys; iteration
order of the Rust `HashMap` is arbitrary, so only membership and lookup are
meaningful. -/
abbrev Meta := List (String × ZhangString)

/-- Embeds `HashMap::insert`: replace the value when the key is present, otherwise
add the binding.  The old value of a duplicate key is dropped. -/
def hashMapInsert : Meta → String → ZhangString → Meta
  | [], k, v => [(k, v)]
  | (k', v') :: rest, k, v =>
      if k' = k then (k, v) :: rest else (k', v') :: hashMapInsert rest k v

/-- Embeds `Meta` lookup (`HashMap::get`). -/
def metaLookup : Meta → String → Option ZhangString
  | [], _ => none
  | (k', v') :: rest, k => if k' = k then some v' else metaLookup rest k

/-- Posting of a zhang transaction (`core/data.rs`, as constructed by
`ZhangParser::transaction_posting` in p.rs). -/
structure Posting where
  flag : Option Flag
  account : Account
  units : Option Amount
  cost : Option Amount
  price : Option SingleTotalPrice
  meta : Meta
deriving DecidableEq, Repr

/-- Zhang transaction (`core/data.rs`, as constructed by
`ZhangParser::transaction` in p.rs). -/
structure Transaction where
  date : Date
  flag : Option Flag
  payee : Option ZhangString
  narration : Option ZhangString
  tags : List String
  links : List String
  postings : List Posting
  meta : Meta
deriving DecidableEq, Repr

/-- Embeds `option` directive payload (`core/data.rs`, field names as in p.rs). -/
structure Options where
  key : ZhangString
  value : ZhangString
deriving DecidableEq, Repr

/-- Embeds `plugin` directive payload. -/
structure Plugin where
  module : ZhangString
  value : List ZhangString
deriving DecidableEq, Repr

/-- Embeds `include` directive payload. -/
structure Include where
  file : ZhangString
deriving DecidableEq, Repr

/-- Comment directive payload. -/
structure Comment where
  content : String
deriving DecidableEq, Repr

/-- Embeds `open` directive payload. -/
structure Open where
  date : Date
  account : Account
  commodities : List String
  meta : Meta
deriving DecidableEq, Repr

/-- Embeds `close` directive payload. -/
structure Close where
  date : Date
  account : Account
  meta : Meta
deriving DecidableEq, Repr

/-- Embeds `commodity` directive payload. -/
structure Commodity where
  date : Date
  currency : String
  meta : Meta
deriving DecidableEq, Repr

/-- Embeds `note` directive payload. -/
structure Note where
  date : Date
  account : Account
  comment : ZhangString
deriving DecidableEq, Repr

/-- Embeds `event` directive payload. -/
structure Event where
  date : Date
  event_type : ZhangString
  description : ZhangString
deriving DecidableEq, Repr

/-- Embeds `document` directive payload. -/
structure Document where
  date : Date
  account : Account
  filename : ZhangString
deriving DecidableEq, Repr

/-- Embeds `price` directive payload. -/
structure Price where
  date : Date
  currency : String
  amount : Amount
deriving DecidableEq, Repr

/-- String-or-account value of a `custom` directive. -/
inductive StringOrAccount
  | String_ (s : ZhangString)
  | Account_ (a : Account)
deriving DecidableEq, Repr

/-- Embeds `custom` directive payload. -/
structure Custom where
  date : Date
  custom_type : ZhangString
  values : List StringOrAccount
deriving DecidableEq, Repr

/-- Plain balance assertion (`Balance::BalanceCheck`). -/
structure BalanceCheck where
  date : Date
  account : Account
  amount : Amount
deriving DecidableEq, Repr

/-- Balance assertion with inline pad account (`Balance::BalancePad`). -/
structure BalancePad where
  date : Date
  account : Account
  amount : Amount
  pad : Account
deriving DecidableEq, Repr

/-- The two balance sub-shapes. -/
inductive Balance
  | BalanceCheck (b : BalanceCheck)
  | BalancePad (b : BalancePad)
deriving DecidableEq, Repr

/-- The zhang directive sum type (`core/models.rs`), with the variants and
payloads exactly as `p.rs` constructs them. -/
inductive Directive
  | Option (o : Options)
  | Plugin (p : Plugin)
  | Include (i : Include)
  | Comment (c : Comment)
  | Open (o : Open)
  | Close (c : Close)
  | Commodity (c : Commodity)
  | Transaction (t : Transaction)
  | Balance (b : Balance)
  | Note (n : Note)
  | Event (e : Event)
  | Document (d : Document)
  | Price (p : Price)
  | Custom (c : Custom)
deriving DecidableEq, Repr

/-- Alias so that `Option ℕ` can be written inside the `Directive` namespace,
where the bare name `Option` refers to the directive variant. -/
abbrev OptionNat := Option ℕ

/-- Modelled from the spec: `Directive::datetime()` (`core/models.rs`, not in
the extracted sources).  The undated variants — Option, Plugin, Include,
Comment — have no datetime; every dated variant yields its date's instant. -/
def Directive.datetime : Directive → OptionNat
  | .Option _ => none
  | .Plugin _ => none
  | .Include _ => none
  | .Comment _ => none
  | .Open o => some o.date.naive_datetime
  | .Close c => some c.date.naive_datetime
  | .Commodity c => some c.date.naive_datetime
  | .Transaction t => some t.date.naive_datetime
  | .Balance (.BalanceCheck b) => some b.date.naive_datetime
  | .Balance (.BalancePad b) => some b.date.naive_datetime
  | .Note n => some n.date.naive_datetime
  | .Event e => some e.date.naive_datetime
  | .Document d => some d.date.naive_datetime
  | .Price p => some p.date.naive_datetime
  | .Custom c => some c.date.naive_datetime

/-! ## Parser handlers (p.rs) -/

/-- The `match_nodes!` arms of `ZhangParser::transaction` (p.rs 306–321),
restricted to how the header binds the flag, payee and narration.  The parse
tree of a transaction header is a date followed by an optional flag and the
quoted strings; the five arms of the source are, in order:

  * `[date, quote_string(payee), …]                                → (None, Some payee, None)`
  * `[date, quote_string(payee), quote_string(narration), …]       → (None, Some payee, Some narration)`
  * `[date, transaction_flag(flag), …]                             → (flag, None, None)`
  * `[date, transaction_flag(flag), quote_string(narration), …]    → (flag, None, Some narration)`
  * `[date, flag, quote_string(payee), quote_string(narration), …] → (flag, Some payee, Some narration)`

The result is the `(payee, narration)` pair; `none` for a child shape no arm
matches (pest would reject it). -/
def transaction_header (flag : Option Flag) (strings : List ZhangString) :
    Option (Option ZhangString × Option ZhangString) :=
  match flag, strings with
  | none, [payee] => some (some payee, none)
  | none, [payee, narration] => some (some payee, some narration)
  | some _, [] => some (none, none)
  | some _, [narration] => some (none, some narration)
  | some _, [payee, narration] => some (some payee, some narration)
  | _, _ => none

/-- Embeds `Transaction::from_parser` of the avaro dialect (avaro/src/models.rs
204–227), restricted to how the `pn` argument is split into payee and
narration. -/
def from_parser_payee_narration : Option (String × Option String) →
    Option String × Option String
  | none => (none, none)
  | some (narration, none) => (none, some narration)
  | some (payee, some narration) => (some payee, some narration)

/-- Embeds `ZhangParser::transaction_posting` (p.rs 227–262).  The `unit` argument is
the parsed `posting_unit`: an amount with an optional `posting_meta` triple
`(cost, lot-date, price)`.  The source sets `line.units` and `line.cost`, but
the price assignment is commented out (`// line.price = meta.2; // todo`), so
`price` is always `None`. -/
def transaction_posting (flag : Option Flag) (account : Account)
    (unit : Option (Amount × Option (Option Amount × Option Date × Option SingleTotalPrice))) :
    Posting :=
  let line : Posting :=
    { flag := flag, account := account, units := none, cost := none,
      price := none, meta := [] }
  match unit with
  | none => line
  | some (amount, meta) =>
      let line := { line with units := some amount }
      match meta with
      | none => line
      | some m => { line with cost := m.1 }

/-- One body line of a transaction as `ZhangParser::transaction_line`
produces it: either a posting or a `key: value` metadata pair. -/
abbrev TransactionLine := Option Posting × Option (String × ZhangString)

/-- Embeds `ZhangParser::transaction` (p.rs 322–345): build the transaction record
from the header pieces, then fold over the body lines, pushing postings and
inserting metadata pairs into the `HashMap`. -/
def transactionFrom (date : Date) (flag : Option Flag)
    (payee narration : Option ZhangString) (tags links : List String)
    (lines : List TransactionLine) : Transaction :=
  let init : Transaction :=
    { date := date, flag := flag, payee := payee, narration := narration,
      tags := tags, links := links, postings := [], meta := [] }
  lines.foldl
    (fun tr line =>
      match line with
      | (some trx, none) => { tr with postings := tr.postings ++ [trx] }
      | (none, some m) => { tr with meta := hashMapInsert tr.meta m.1 m.2 }
      | _ => tr)
    init

/-! ## Date parsing (`ZhangParser::date_only`, p.rs 80–83)

`date_only` runs `NaiveDate::parse_from_str(input, "%Y-%m-%d").unwrap()`.
chrono's parser is modelled below; `none` models the parse failure that the
`.unwrap()` turns into a panic. -/

/-- Modelled from the spec: Gregorian leap year (chrono calendar rules). -/
def isLeap (y : ℕ) : Bool := (y % 4 == 0 && y % 100 != 0) || y % 400 == 0

/-- Modelled from the spec: days in a month (chrono calendar rules). -/
def daysInMonth (y m : ℕ) : ℕ :=
  if m = 2 then (if isLeap y then 29 else 28)
  else if m = 4 ∨ m = 6 ∨ m = 9 ∨ m = 11 then 30
  else 31

/-- Character-list splitting on a separator (`String::split` semantics,
written on `List Char` so that the kernel can evaluate it). -/
def splitOnChar (sep : Char) : List Char → List (List Char)
  | [] => [[]]
  | c :: rest =>
      let r := splitOnChar sep rest
      if c = sep then [] :: r
      else
        match r with
        | [] => [[c]]
        | g :: gs => (c :: g) :: gs

/-- Decimal digits to a number; `none` on an empty or non-digit field. -/
def digitsToNat (cs : List Char) : Option ℕ :=
  match cs with
  | [] => none
  | _ => cs.foldl (fun acc c =>
      match acc with
      | none => none
      | some n => if c.isDigit then some (n * 10 + (c.toNat - 48)) else none) (some 0)

/-- Modelled from the spec: `NaiveDate::parse_from_str(s, "%Y-%m-%d")`.  The
three dash-separated decimal fields must form a real calendar date; an
out-of-range day or month yields `none` (chrono's parse error). -/
def parseNaiveDate (s : String) : Option (ℕ × ℕ × ℕ) :=
  match splitOnChar (Char.ofNat 45) s.toList with
  | [ys, ms, ds] =>
      match digitsToNat ys, digitsToNat ms, digitsToNat ds with
      | some y, some m, some d =>
          if 1 ≤ m ∧ m ≤ 12 ∧ 1 ≤ d ∧ d ≤ daysInMonth y m
          then some (y, m, d) else none
      | _, _, _ => none
  | _ => none

/-- Embeds `ZhangParser::date_only` (p.rs 80–83): parse the node text with chrono
and `.unwrap()` the result.  A `none` result is the chrono parse error on
which the source's `.unwrap()` panics instead of returning a `ParseError`. -/
def date_only (s : String) : Option Date :=
  (parseNaiveDate s).map (fun p => Date.Date p.1 p.2.1 p.2.2)

/-! ## Inventory arithmetic and transaction balancing (core/ledger.rs 244–269) -/

/-- Rounding mode (`core/options.rs`): `RoundUp` or `RoundDown`, default
`RoundDown`. -/
inductive Rounding
  | RoundUp
  | RoundDown
deriving DecidableEq, Repr

/-- Embeds `Rounding::is_up`. -/
def Rounding.is_up : Rounding → Bool
  | .RoundUp => true
  | .RoundDown => false

/-- The two ledger options read by `is_transaction_balanced`
(`core/options.rs`): `default_balance_tolerance_precision` (default 2) and
`default_rounding` (default RoundDown). -/
structure LedgerOptions where
  default_balance_tolerance_precision : ℕ
  default_rounding : Rounding
deriving DecidableEq, Repr

/-- Modelled from the spec: the commodity read-model row returned by
`CommodityOperation::get_by_name` (`core/operations/commodity.rs`, not in the
extracted sources): a declared precision and an optional rounding string. -/
structure CommodityRecord where
  precision : ℕ
  rounding : Option String
deriving DecidableEq, Repr

/-- Modelled from the spec: `BigDecimal::round_with(precision, is_up)`
(`core/utils/bigdecimal_ext.rs`, not in the extracted sources).  Round at
`precision` decimal places; `RoundUp` rounds away from zero, `RoundDown`
truncates toward zero. -/
def roundWith (x : ℚ) (precision : ℕ) (up : Bool) : ℚ :=
  let scaled : ℚ := x * ((10 : ℚ) ^ precision)
  let n : ℤ :=
    if up then (if 0 ≤ scaled then ⌈scaled⌉ else ⌊scaled⌋)
    else (if 0 ≤ scaled then ⌊scaled⌋ else ⌈scaled⌉)
  (n : ℚ) / ((10 : ℚ) ^ precision)

/-- Per-transaction inventory (`core/inventory.rs`): commodity → running
total.  The code iterates `inventory.currencies` as (currency, amount) pairs
and reads `amount.total`; the map is modelled as an association list. -/
structure Inventory where
  currencies : List (String × ℚ)
deriving DecidableEq, Repr

/-- Modelled from the spec: inventory `add(Amount)` — add the number to the
commodity's total; a zero entry is not retained after arithmetic. -/
def Inventory.addAmount (inv : List (String × ℚ)) (a : Amount) : List (String × ℚ) :=
  match inv with
  | [] => if a.number = 0 then [] else [(a.currency, a.number)]
  | (c, t) :: rest =>
      if c = a.currency then
        (if t + a.number = 0 then rest else (c, t + a.number) :: rest)
      else (c, t) :: Inventory.addAmount rest a

/-- Errors surfaced by the pieces embedded here (`error.rs` /
`LedgerErrorType`). -/
inductive ZhangError
  | Io
  | PestError
  | TransactionHasMultipleImplicitPosting
deriving DecidableEq, Repr

/-- Modelled from the spec: the contribution of one posting to the
transaction-level balance (§4.E step 3): with a `@` price the contribution is
`units × price` in the price commodity; with `@@` it is the total price with
the sign of the units; with a `{cost}` it is `units × cost`; otherwise the
posting's own amount.  A posting without units contributes nothing here. -/
def postingContribution (p : Posting) : Option Amount :=
  match p.units with
  | none => none
  | some u =>
      match p.price with
      | some (.Single pr) => some { number := u.number * pr.number, currency := pr.currency }
      | some (.Total pr) =>
          some { number := if u.number < 0 then -pr.number else pr.number,
                 currency := pr.currency }
      | none =>
          match p.cost with
          | some c => some { number := u.number * c.number, currency := c.currency }
          | none => some u

/-- Modelled from the spec: `Transaction::get_postings_inventory`
(`core/data.rs`, not in the extracted sources).  More than one posting
without units is the `TransactionHasMultipleImplicitPosting` error (invariant
I5 / §4.E step 2); otherwise the postings' contributions are summed into an
inventory. -/
def get_postings_inventory (txn : Transaction) : Except ZhangError Inventory :=
  if 2 ≤ (txn.postings.filter (fun p => p.units.isNone)).length then
    .error .TransactionHasMultipleImplicitPosting
  else
    .ok ⟨txn.postings.foldl
      (fun inv p =>
        match postingContribution p with
        | some a => Inventory.addAmount inv a
        | none => inv) []⟩

/-- The precision used for a currency by `is_transaction_balanced`
(core/ledger.rs 252–255): the commodity record's precision, or
`default_balance_tolerance_precision` when there is no record. -/
def effectivePrecision (opts : LedgerOptions) (table : String → Option CommodityRecord)
    (currency : String) : ℕ :=
  ((table currency).map (fun it => it.precision)).getD
    opts.default_balance_tolerance_precision

/-- The rounding flag used for a currency by `is_transaction_balanced`
(core/ledger.rs 256–259): whether the record's rounding string equals
`"RoundUp"`, or `default_rounding.is_up()` when the record or its rounding is
absent. -/
def effectiveRounding (opts : LedgerOptions) (table : String → Option CommodityRecord)
    (currency : String) : Bool :=
  (((table currency).bind (fun it => it.rounding)).map (fun s => s == "RoundUp")).getD
    opts.default_rounding.is_up

/-- The `for (currency, amount) in inventory.currencies` loop of
`is_transaction_balanced` (core/ledger.rs 248–264) with its early
`return Ok(false)`: round each total at the currency's precision and
rounding; `false` at the first non-zero, `true` when the loop drains. -/
def currenciesBalanced (opts : LedgerOptions) (table : String → Option CommodityRecord) :
    List (String × ℚ) → Bool
  | [] => true
  | (currency, total) :: rest =>
      let decimal := roundWith total (effectivePrecision opts table currency)
        (effectiveRounding opts table currency)
      if decimal ≠ 0 then false
      else currenciesBalanced opts table rest

/-- Embeds `Ledger::is_transaction_balanced` (core/ledger.rs 244–269).  The sqlite
commodity lookup is modelled by the pure `table`.  An error from
`get_postings_inventory` is swallowed into `Ok(false)`. -/
def is_transaction_balanced (opts : LedgerOptions)
    (table : String → Option CommodityRecord) (txn : Transaction) :
    Except ZhangError Bool :=
  match get_postings_inventory txn with
  | .ok inventory => .ok (currenciesBalanced opts table inventory.currencies)
  | .error _ => .ok false

/-! ## `Ledger::sort_directives_datetime` (core/ledger.rs 218–224)

The source sorts with

```
directives.sort_by(|a, b| match (a.datetime(), b.datetime()) {
    (Some(a_datetime), Some(b_datetime)) => a_datetime.cmp(&b_datetime),
    _ => Ordering::Greater,
});
```

`Vec::sort_by` is Rust's stable sort.  For slices of at most `MAX_INSERTION
= 20` elements it is exactly insertion sort: element `j` shifts left while
the comparator says it is `Less` than its predecessor.  That insertion-sort
branch is the model below: `insertRev` inserts into the reversed
already-sorted prefix, descending while `Less`.  The model is exact for
lists of at most 20 directives — the regime every theorem below stays
inside — and reproduces the repository's own unit tests
(`sort_directive_datetime` in core/ledger.rs) exactly.  For longer slices
Rust switches to a run-based merge sort whose output under this non-total
comparator (it never answers `Less` when either side lacks a datetime) is
different and unspecified, so nothing is claimed about slices longer
than 20. -/

/-- The comparator closure of `sort_directives_datetime`. -/
def sortCmp (a b : Directive) : Ordering :=
  match a.datetime, b.datetime with
  | some x, some y => compare x y
  | _, _ => .gt

/-- Insert `x` into the reversed sorted prefix: descend while the comparator
answers `Less` against the element just before `x` (Rust's insertion-sort
shift). -/
def insertRev (cmp : Directive → Directive → Ordering) (x : Directive) :
    List Directive → List Directive
  | [] => [x]
  | y :: ys => if cmp x y = .lt then y :: insertRev cmp x ys else x :: y :: ys

/-- Embeds `Ledger::sort_directives_datetime`: stable sort by the `sortCmp`
comparator.  This is the insertion-sort branch of Rust's stable sort, exact
for input lists of at most 20 directives (see the section comment); all
theorems about it carry or satisfy that bound. -/
def sort_directives_datetime (directives : List Directive) : List Directive :=
  (directives.foldl (fun acc x => insertRev sortCmp x acc) []).reverse

/-! ## The loader (`Ledger::load_with_database`, core/ledger.rs 80–124)

A `PathBuf` is modelled by its list of components; the filesystem by an
association list from path to the file's parsed directives (reading and
parsing a file — `load_directive_from_file` — is a lookup; a missing or
unreadable file is a failed lookup, which models the `Err` that
`canonicalize()` / `read_to_string` return and `?` propagates).
`Path::canonicalize` on an existing file is the identity here. -/

/-- Filesystem path as its components (`PathBuf`). -/
abbrev Path := List String

/-- Embeds `PathBuf::from(string)`: split into components on the separator. -/
def pathBufFrom (s : String) : Path :=
  (splitOnChar (Char.ofNat 47) s.toList).map (fun cs => String.mk cs)

/-- Embeds `path.parent().map(|it| it.join(&buf)).unwrap_or(buf)`
(core/ledger.rs 102): resolve an include target against the including file's
directory. -/
def parentJoin (p : Path) (buf : Path) : Path := p.dropLast ++ buf

/-- Filesystem read model: path → parsed directives of that file. -/
abbrev FileSystem := List (Path × List Directive)

/-- Lookup of a path in the filesystem (first binding wins, as
`canonicalize` + `read_to_string` behave on a real filesystem). -/
def fsLookup : FileSystem → Path → Option (List Directive)
  | [], _ => none
  | (q, ds) :: rest, p => if q = p then some ds else fsLookup rest p

/-- The include push of core/ledger.rs 96–108: filter the file's directives
for `Include` and resolve each target against the file's directory. -/
def includePaths (p : Path) (ds : List Directive) : List Path :=
  ds.filterMap (fun d =>
    match d with
    | .Include i => some (parentJoin p (pathBufFrom i.file.to_plain_string))
    | _ => none)

/-- Upper bound on how many paths one file's directives can push onto the
load queue; used only for the termination measure of `loadLoop`. -/
def maxIncludes (fs : FileSystem) : ℕ :=
  (fs.map (fun e => (includePaths e.1 e.2).length)).foldr max 0

/-- Number of filesystem entries not yet visited; used only for the
termination measure of `loadLoop`. -/
def unvisitedCount (fs : FileSystem) (visited : List Path) : ℕ :=
  ((fs.map (fun e => e.1)).filter (fun q => ¬ q ∈ visited)).length

theorem includePaths_le_maxIncludes {fs : FileSystem} {p : Path}
    {ds : List Directive} (h : fsLookup fs p = some ds) :
    (includePaths p ds).length ≤ maxIncludes fs := by
  induction fs with
  | nil => simp [fsLookup] at h
  | cons e rest ih =>
      obtain ⟨q, es⟩ := e
      rw [fsLookup] at h
      by_cases hq : q = p
      · simp only [if_pos hq] at h
        subst hq
        cases h
        simp only [maxIncludes, List.map_cons, List.foldr_cons]
        have : maxIncludes rest = (rest.map (fun e => (includePaths e.1 e.2).length)).foldr max 0 := rfl
        omega
      · simp only [if_neg hq] at h
        have := ih h
        simp only [maxIncludes, List.map_cons, List.foldr_cons] at this ⊢
        omega

theorem fsLookup_some_mem_keys {fs : FileSystem} {p : Path}
    {ds : List Directive} (h : fsLookup fs p = some ds) :
    p ∈ fs.map (fun e => e.1) := by
  induction fs with
  | nil => simp [fsLookup] at h
  | cons e rest ih =>
      obtain ⟨q, es⟩ := e
      rw [fsLookup] at h
      by_cases hq : q = p
      · simp [hq]
      · simp only [if_neg hq] at h
        simp [ih h]

theorem filter_unvisited_le (l : List Path) (visited : List Path) (p : Path) :
    ((l.filter (fun q => ¬ q ∈ visited ++ [p])).length ≤
      (l.filter (fun q => ¬ q ∈ visited)).length) := by
  induction l with
  | nil => simp
  | cons a l ih =>
      rw [List.filter_cons, List.filter_cons]
      by_cases h1 : a ∈ visited ++ [p]
      · have e1 : decide (¬ a ∈ visited ++ [p]) = false := decide_eq_false (not_not_intro h1)
        by_cases h2 : a ∈ visited
        · have e2 : decide (¬ a ∈ visited) = false := decide_eq_false (not_not_intro h2)
          simp only [e1, e2]
          simpa using ih
        · have e2 : decide (¬ a ∈ visited) = true := decide_eq_true h2
          simp only [e1, e2]
          simp only [Bool.false_eq_true, if_false, if_true, List.length_cons]
          omega
      · have h2 : ¬ a ∈ visited := fun hc => h1 (List.mem_append_left _ hc)
        have e1 : decide (¬ a ∈ visited ++ [p]) = true := decide_eq_true h1
        have e2 : decide (¬ a ∈ visited) = true := decide_eq_true h2
        simp only [e1, e2, if_true, List.length_cons]
        omega

theorem filter_unvisited_lt (l : List Path) (visited : List Path) (p : Path)
    (hmem : p ∈ l) (hnv : ¬ p ∈ visited) :
    ((l.filter (fun q => ¬ q ∈ visited ++ [p])).length <
      (l.filter (fun q => ¬ q ∈ visited)).length) := by
  induction l with
  | nil => simp at hmem
  | cons a l ih =>
      rw [List.filter_cons, List.filter_cons]
      by_cases hap : a = p
      · subst hap
        have e1 : decide (¬ a ∈ visited ++ [a]) = false :=
          decide_eq_false (not_not_intro (List.mem_append_right _ (List.mem_singleton.mpr rfl)))
        have e2 : decide (¬ a ∈ visited) = true := decide_eq_true hnv
        simp only [e1, e2, Bool.false_eq_true, if_false, if_true, List.length_cons]
        have := filter_unvisited_le l visited a
        omega
      · have hmem' : p ∈ l := by
          rcases List.mem_cons.mp hmem with h | h
          · exact absurd h.symm hap
          · exact h
        have hlt := ih hmem'
        by_cases ha : a ∈ visited
        · have e1 : decide (¬ a ∈ visited ++ [p]) = false :=
            decide_eq_false (not_not_intro (List.mem_append_left _ ha))
          have e2 : decide (¬ a ∈ visited) = false := decide_eq_false (not_not_intro ha)
          simp only [e1, e2, Bool.false_eq_true, if_false]
          omega
        · have h1 : ¬ a ∈ visited ++ [p] := by
            intro hc
            rcases List.mem_append.mp hc with hc | hc
            · exact ha hc
            · exact hap (List.mem_singleton.mp hc)
          have e1 : decide (¬ a ∈ visited ++ [p]) = true := decide_eq_true h1
          have e2 : decide (¬ a ∈ visited) = true := decide_eq_true ha
          simp only [e1, e2, if_true, List.length_cons]
          omega

theorem unvisitedCount_visit_lt {fs : FileSystem} {p : Path}
    (visited : List Path) (hmem : p ∈ fs.map (fun e => e.1))
    (hnv : ¬ p ∈ visited) :
    unvisitedCount fs (visited ++ [p]) < unvisitedCount fs visited := by
  unfold unvisitedCount
  exact filter_unvisited_lt (fs.map (fun e => e.1)) visited p hmem hnv

/-- The load loop of `Ledger::load_with_database` (core/ledger.rs 84–111):
pop a path from the FIFO queue; `canonicalize` it (an error on a missing
file is propagated by `?`, aborting the whole load); skip it when already
visited; otherwise parse it, push every include target onto the queue, mark
it visited and append its directives.  Termination is the Rust loop's own
argument: every iteration either shrinks the queue or visits a new file, and
only finitely many files exist. -/
def loadLoop (fs : FileSystem) :
    List Path → List Path → List Directive →
    Except ZhangError (List Directive × List Path)
  | [], visited, acc => .ok (acc, visited)
  | p :: rest, visited, acc =>
      match h : fsLookup fs p with
      | none => .error .Io
      | some ds =>
          if p ∈ visited then loadLoop fs rest visited acc
          else loadLoop fs (rest ++ includePaths p ds) (visited ++ [p]) (acc ++ ds)
termination_by queue visited _ =>
  unvisitedCount fs visited * (maxIncludes fs + 1) + queue.length
decreasing_by
  · simp only [List.length_cons]
    omega
  · have hle := includePaths_le_maxIncludes h
    have hmem := fsLookup_some_mem_keys h
    rename_i hnv
    have hlt : unvisitedCount fs (visited ++ [p]) < unvisitedCount fs visited :=
      unvisitedCount_visit_lt visited hmem hnv
    simp only [List.length_append, List.length_cons]
    have hmax : (includePaths p ds).length ≤ maxIncludes fs := hle
    nlinarith [hlt, hmax]

/-- Embeds `Ledger::load_with_database` (core/ledger.rs 80–119) up to the
point where the merged directive list is handed to `Ledger::process`: the
entry file is `entry.join(&endpoint)` (both canonicalized up front — the
first loop iteration performs the same lookup, so a missing entry yields the
same error), and the queue is seeded with it. -/
def load_with_database (fs : FileSystem) (entry : Path) (endpoint : String) :
    Except ZhangError (List Directive × List Path) :=
  loadLoop fs [entry ++ pathBufFrom endpoint] [] []

theorem loadLoop_nil (fs : FileSystem) (visited : List Path) (acc : List Directive) :
    loadLoop fs [] visited acc = .ok (acc, visited) := by
  unfold loadLoop
  rfl

theorem loadLoop_missing (fs : FileSystem) (p : Path) (rest : List Path)
    (visited : List Path) (acc : List Directive) (h : fsLookup fs p = none) :
    loadLoop fs (p :: rest) visited acc = .error .Io := by
  conv_lhs => unfold loadLoop
  split
  · rfl
  · rename_i ds hds
    rw [h] at hds
    cases hds

theorem loadLoop_visited_step (fs : FileSystem) (p : Path) (rest : List Path)
    (visited : List Path) (acc : List Directive) (ds : List Directive)
    (h : fsLookup fs p = some ds) (hv : p ∈ visited) :
    loadLoop fs (p :: rest) visited acc = loadLoop fs rest visited acc := by
  conv_lhs => unfold loadLoop
  split
  · rename_i hds
    rw [h] at hds
    cases hds
  · rename_i ds' hds
    rw [h] at hds
    cases hds
    rw [if_pos hv]

theorem loadLoop_new_step (fs : FileSystem) (p : Path) (rest : List Path)
    (visited : List Path) (acc : List Directive) (ds : List Directive)
    (h : fsLookup fs p = some ds) (hv : ¬ p ∈ visited) :
    loadLoop fs (p :: rest) visited acc =
      loadLoop fs (rest ++ includePaths p ds) (visited ++ [p]) (acc ++ ds) := by
  conv_lhs => unfold loadLoop
  split
  · rename_i hds
    rw [h] at hds
    cases hds
  · rename_i ds' hds
    rw [h] at hds
    cases hds
    rw [if_neg hv]

/-- Directives of a file, for stating what the loader appends. -/
def dirsOf (fs : FileSystem) (p : Path) : List Directive := (fsLookup fs p).getD []

/-- Include-closedness of a file set: every include target of every file
resolves to an existing file.  Cycles are allowed. -/
def IncludeClosed (fs : FileSystem) : Prop :=
  ∀ e ∈ fs, ∀ q ∈ includePaths e.1 e.2, q ∈ fs.map (fun x => x.1)

instance : DecidablePred IncludeClosed := fun fs => by
  unfold IncludeClosed
  infer_instance

theorem mem_keys_lookup_isSome {fs : FileSystem} {p : Path}
    (h : p ∈ fs.map (fun e => e.1)) : ∃ ds, fsLookup fs p = some ds := by
  induction fs with
  | nil => simp at h
  | cons e rest ih =>
      rw [List.map_cons] at h
      rcases List.mem_cons.mp h with hq | hq
      · exact ⟨e.2, by rw [fsLookup, if_pos hq.symm]⟩
      · by_cases he : e.1 = p
        · exact ⟨e.2, by rw [fsLookup, if_pos he]⟩
        · obtain ⟨ds, hds⟩ := ih hq
          exact ⟨ds, by rw [fsLookup, if_neg he]; exact hds⟩

theorem fsLookup_some_mem {fs : FileSystem} {p : Path} {ds : List Directive}
    (h : fsLookup fs p = some ds) : (p, ds) ∈ fs := by
  induction fs with
  | nil => simp [fsLookup] at h
  | cons e rest ih =>
      obtain ⟨q, es⟩ := e
      rw [fsLookup] at h
      by_cases hq : q = p
      · simp only [if_pos hq] at h
        cases h
        subst hq
        exact List.mem_cons_self _ _
      · simp only [if_neg hq] at h
        exact List.mem_cons_of_mem _ (ih h)

/-- Every `Ok` result of the load loop extends the accumulator: the directives
already appended stay a prefix of the final merged list. -/
theorem loadLoop_acc_prefix (fs : FileSystem) :
    ∀ queue visited acc dirs vis,
      loadLoop fs queue visited acc = .ok (dirs, vis) → ∃ t, dirs = acc ++ t := by
  intro queue visited acc
  induction queue, visited, acc using loadLoop.induct fs with
  | case1 visited acc =>
      intro dirs vis h
      rw [loadLoop_nil] at h
      cases h
      exact ⟨[], by simp⟩
  | case2 p rest visited acc h =>
      intro dirs vis hres
      rw [loadLoop_missing fs p rest visited acc h] at hres
      cases hres
  | case3 p rest visited acc ds h hv ih =>
      intro dirs vis hres
      rw [loadLoop_visited_step fs p rest visited acc ds h hv] at hres
      exact ih dirs vis hres
  | case4 p rest visited acc ds h hv ih =>
      intro dirs vis hres
      rw [loadLoop_new_step fs p rest visited acc ds h hv] at hres
      obtain ⟨t, ht⟩ := ih dirs vis hres
      exact ⟨ds ++ t, by rw [ht, List.append_assoc]⟩

/-- Main loop invariant: on an include-closed file set, the loop always
returns `Ok`; it visits a list `newly` of previously unvisited, pairwise
distinct files and appends exactly their directives, in visit order, to the
accumulator.  In particular a cyclic include graph is not an error and no
file's directives are appended twice. -/
theorem loadLoop_ok_shape (fs : FileSystem) (hclosed : IncludeClosed fs) :
    ∀ queue visited acc,
      (∀ x ∈ queue, x ∈ fs.map (fun e => e.1)) →
      ∃ newly, loadLoop fs queue visited acc =
          .ok (acc ++ newly.flatMap (fun p => dirsOf fs p), visited ++ newly) ∧
        (∀ x ∈ newly, ¬ x ∈ visited) ∧ newly.Nodup := by
  intro queue visited acc
  induction queue, visited, acc using loadLoop.induct fs with
  | case1 visited acc =>
      intro _
      exact ⟨[], by rw [loadLoop_nil]; simp, by simp, List.nodup_nil⟩
  | case2 p rest visited acc h =>
      intro hq
      obtain ⟨ds, hds⟩ := mem_keys_lookup_isSome (hq p (List.mem_cons_self p rest))
      rw [h] at hds
      cases hds
  | case3 p rest visited acc ds h hv ih =>
      intro hq
      obtain ⟨newly, hres, hfresh, hnd⟩ :=
        ih (fun x hx => hq x (List.mem_cons_of_mem p hx))
      exact ⟨newly, by rw [loadLoop_visited_step fs p rest visited acc ds h hv]; exact hres,
        hfresh, hnd⟩
  | case4 p rest visited acc ds h hv ih =>
      intro hq
      have hqueue : ∀ x ∈ rest ++ includePaths p ds, x ∈ fs.map (fun e => e.1) := by
        intro x hx
        rcases List.mem_append.mp hx with hx | hx
        · exact hq x (List.mem_cons_of_mem p hx)
        · exact hclosed (p, ds) (fsLookup_some_mem h) x hx
      obtain ⟨newly, hres, hfresh, hnd⟩ := ih hqueue
      refine ⟨p :: newly, ?_, ?_, ?_⟩
      · rw [loadLoop_new_step fs p rest visited acc ds h hv, hres]
        have hdirs : dirsOf fs p = ds := by rw [dirsOf, h]; rfl
        simp [hdirs, List.append_assoc]
      · intro x hx
        rcases List.mem_cons.mp hx with hx | hx
        · subst hx; exact hv
        · intro hc
          exact hfresh x hx (List.mem_append_left _ hc)
      · refine List.nodup_cons.mpr ⟨?_, hnd⟩
        intro hc
        exact hfresh p hc (List.mem_append_right _ (List.mem_singleton.mpr rfl))

/-! ## Helper lemmas about the sort comparator and insertion -/

theorem sortCmp_gt_right (x u : Directive) (hu : u.datetime = none) :
    sortCmp x u = .gt := by
  cases hx : x.datetime <;> simp [sortCmp, hu, hx]

theorem sortCmp_gt_left (u y : Directive) (hu : u.datetime = none) :
    sortCmp u y = .gt := by
  cases hy : y.datetime <;> simp [sortCmp, hu, hy]

theorem insertRev_undated (u : Directive) (hu : u.datetime = none)
    (acc : List Directive) : insertRev sortCmp u acc = u :: acc := by
  cases acc with
  | nil => rfl
  | cons y ys =>
      rw [insertRev, if_neg (by rw [sortCmp_gt_left u y hu]; simp)]

theorem insertRev_barrier (x u : Directive) (hu : u.datetime = none)
    (w rest : List Directive) :
    insertRev sortCmp x (w ++ u :: rest) = insertRev sortCmp x w ++ u :: rest := by
  induction w with
  | nil =>
      simp only [List.nil_append, insertRev]
      rw [if_neg (by rw [sortCmp_gt_right x u hu]; simp)]
      rfl
  | cons y ys ih =>
      simp only [List.cons_append, insertRev]
      by_cases h : sortCmp x y = .lt
      · simp [h, ih]
      · simp [h]

theorem foldl_insert_barrier (u : Directive) (hu : u.datetime = none) :
    ∀ (l w rest : List Directive),
      l.foldl (fun acc x => insertRev sortCmp x acc) (w ++ u :: rest) =
        l.foldl (fun acc x => insertRev sortCmp x acc) w ++ u :: rest := by
  intro l
  induction l with
  | nil => intro w rest; rfl
  | cons a l ih =>
      intro w rest
      simp only [List.foldl_cons]
      rw [insertRev_barrier a u hu w rest]
      exact ih (insertRev sortCmp a w) rest

/-! ## Helper lemma for the balancedness loop -/

theorem currenciesBalanced_iff (opts : LedgerOptions)
    (table : String → Option CommodityRecord) :
    ∀ l, currenciesBalanced opts table l = true ↔
      ∀ c t, (c, t) ∈ l →
        roundWith t (effectivePrecision opts table c) (effectiveRounding opts table c) = 0 := by
  intro l
  induction l with
  | nil => simp [currenciesBalanced]
  | cons p rest ih =>
      obtain ⟨c, t⟩ := p
      rw [currenciesBalanced]
      by_cases h0 :
          roundWith t (effectivePrecision opts table c) (effectiveRounding opts table c) = 0
      · rw [if_neg (not_not_intro h0), ih]
        constructor
        · intro hall c' t' hm
          rcases List.mem_cons.mp hm with he | hm'
          · rw [Prod.mk.injEq] at he
            obtain ⟨rfl, rfl⟩ := he
            exact h0
          · exact hall c' t' hm'
        · intro hall c' t' hm'
          exact hall c' t' (List.mem_cons_of_mem _ hm')
      · rw [if_pos h0]
        constructor
        · intro hc
          cases hc
        · intro hall
          exact ((h0 (hall c t (List.mem_cons_self _ _))).elim)

/-! ## Concrete fixtures for counterexamples and witnesses -/

/-- Fixture: the account `Assets:Hello`. -/
def acctHello : Account := ⟨.Assets, "Assets:Hello", ["Hello"]⟩

/-- Fixture: an undated `option` directive. -/
def optTitle : Directive := .Option ⟨.QuoteString "title", .QuoteString "Title"⟩

/-- Fixture: a dated `open` directive. -/
def openHello : Directive := .Open ⟨.Date 1970 1 1, acctHello, [], []⟩

/-- Fixture: default ledger options (tolerance precision 2, RoundDown). -/
def opts0 : LedgerOptions := ⟨2, .RoundDown⟩

/-- Fixture: an empty commodity read model. -/
def table0 : String → Option CommodityRecord := fun _ => none

/-- Fixture: a posting of 10 CNY to `Assets:Hello`. -/
def postingTenCNY : Posting := ⟨none, acctHello, some ⟨10, "CNY"⟩, none, none, []⟩

/-- Fixture: a posting without units (an implicit leg). -/
def postingNoUnits : Posting := ⟨none, acctHello, none, none, none, []⟩

/-- Fixture: a transaction with a single 10 CNY posting. -/
def txnOnePosting : Transaction :=
  ⟨.Date 2022 2 22, none, none, none, [], [], [postingTenCNY], []⟩

/-- Fixture: a transaction with two implicit (units-less) postings. -/
def txnTwoImplicit : Transaction :=
  ⟨.Date 2022 2 22, none, none, none, [], [], [postingNoUnits, postingNoUnits], []⟩

/-- Fixture: an `include "sub.zhang"` directive. -/
def inclSub : Directive := .Include ⟨.QuoteString "sub.zhang"⟩

/-- Fixture: a file set whose only file includes a missing file. -/
def fsMissing : FileSystem := [(["main.zhang"], [inclSub])]

/-- Fixture: `option "a" "1"` (scenario S6). -/
def optA : Directive := .Option ⟨.QuoteString "a", .QuoteString "1"⟩

/-- Fixture: `option "b" "2"` (scenario S6). -/
def optB : Directive := .Option ⟨.QuoteString "b", .QuoteString "2"⟩

/-- Fixture: `include "sub"` (scenario S6). -/
def inclS6 : Directive := .Include ⟨.QuoteString "sub"⟩

/-- Fixture: the S6 file set — `main` holds `option "a" "1"; include "sub"`,
`sub` holds `option "b" "2"`. -/
def fsS6 : FileSystem := [(["main"], [optA, inclS6]), (["sub"], [optB])]

/-- Fixture: `include "a"`. -/
def inclA : Directive := .Include ⟨.QuoteString "a"⟩

/-- Fixture: `include "b"`. -/
def inclB : Directive := .Include ⟨.QuoteString "b"⟩

/-- Fixture: a cyclic file set — `a` includes `b`, `b` includes `a`. -/
def fsCyc : FileSystem := [(["a"], [inclB]), (["b"], [inclA])]

/-- Evaluation of the loader on the S6 file set: the merged directive list is
`[option a=1, include "sub", option b=2]`. -/
theorem loadS6_eval : load_with_database fsS6 [] "main" =
    Except.ok ([optA, inclS6, optB], [["main"], ["sub"]]) := by
  unfold load_with_database
  rw [show (([] : Path) ++ pathBufFrom "main") = ["main"] from by decide]
  rw [loadLoop_new_step fsS6 ["main"] [] [] [] [optA, inclS6] (by decide) (by simp)]
  rw [show ([] ++ includePaths ["main"] [optA, inclS6] : List Path) = [["sub"]] from by decide]
  rw [loadLoop_new_step fsS6 ["sub"] [] ([] ++ [["main"]]) ([] ++ [optA, inclS6]) [optB]
    (by decide) (by decide)]
  rw [show ([] ++ includePaths ["sub"] [optB] : List Path) = [] from by decide]
  rw [loadLoop_nil]
  simp

/-! ## Claim theorems -/

/-- C1: `is_transaction_balanced` returns `Ok(true)` iff, for every commodity
`c` in the inventory summed from the transaction's postings, the total for
`c` rounded at `c`'s effective precision and rounding mode (the commodity
record's values, with `default_balance_tolerance_precision` and
`default_rounding` as defaults when the record defines none) is zero; a
commodity that is absent from the inventory counts as zero (second conjunct:
rounding a zero total always yields zero, and absent commodities are not
consulted at all). -/
theorem is_transaction_balanced_iff_rounded_zero (opts : LedgerOptions)
    (table : String → Option CommodityRecord) (txn : Transaction) (inv : Inventory)
    (h : get_postings_inventory txn = .ok inv) :
    (is_transaction_balanced opts table txn = .ok true ↔
      ∀ c t, (c, t) ∈ inv.currencies →
        roundWith t (effectivePrecision opts table c) (effectiveRounding opts table c) = 0) ∧
    (∀ precision up, roundWith 0 precision up = 0) := by
  constructor
  · unfold is_transaction_balanced
    rw [h]
    simp only [Except.ok.injEq]
    exact currenciesBalanced_iff opts table inv.currencies
  · intro precision up
    simp [roundWith]

/-- C1 witness: the theorem applied to a concrete unbalanced transaction
holding a single 10 CNY posting, with the default options and an empty
commodity table. -/
theorem is_transaction_balanced_iff_rounded_zero_witness :
    (is_transaction_balanced opts0 table0 txnOnePosting = .ok true ↔
      ∀ c t, (c, t) ∈ (Inventory.mk [("CNY", 10)]).currencies →
        roundWith t (effectivePrecision opts0 table0 c) (effectiveRounding opts0 table0 c) = 0) ∧
    (∀ precision up, roundWith 0 precision up = 0) :=
  is_transaction_balanced_iff_rounded_zero opts0 table0 txnOnePosting
    (Inventory.mk [("CNY", 10)]) (by rfl)

/-- C2 counterexample: a transaction header with no flag and exactly one
quoted string binds that string as the *payee* (first `match_nodes!` arm of
`ZhangParser::transaction`), not as the narration with payee absent as the
claim states. -/
theorem transaction_header_lone_string_is_payee :
    transaction_header none [ZhangString.QuoteString "Store"] =
      some (some (ZhangString.QuoteString "Store"), none) ∧
    transaction_header none [ZhangString.QuoteString "Store"] ≠
      some (none, some (ZhangString.QuoteString "Store")) := by
  decide

/-- C2 (amended): when a flag precedes it, a single quoted string binds as
the narration with the payee absent, and in the avaro dialect
(`Transaction::from_parser`) a single string always binds as the narration;
but in the zhang dialect a header without a flag binds a single string as
the payee with the narration absent.  With two strings the first is always
the payee and the second the narration. -/
theorem transaction_header_and_from_parser_binding (f : Flag) (fo : Option Flag)
    (s s₁ s₂ : ZhangString) (t : String) :
    transaction_header (some f) [s] = some (none, some s) ∧
    transaction_header none [s] = some (some s, none) ∧
    transaction_header fo [s₁, s₂] = some (some s₁, some s₂) ∧
    from_parser_payee_narration (some (t, none)) = (none, some t) := by
  refine ⟨rfl, rfl, ?_, rfl⟩
  cases fo <;> rfl

/-- C3 counterexample: loading an entry file whose `include` target is
missing makes the whole load return `Err` (the `?` on `canonicalize`
propagates), instead of recording an error and returning a ledger. -/
theorem load_missing_include_aborts :
    load_with_database fsMissing [] "main.zhang" = .error .Io := by
  unfold load_with_database
  rw [show (([] : Path) ++ pathBufFrom "main.zhang") = ["main.zhang"] from by decide]
  rw [loadLoop_new_step fsMissing ["main.zhang"] [] [] [] [inclSub] (by decide) (by simp)]
  rw [show ([] ++ includePaths ["main.zhang"] [inclSub] : List Path) = [["sub.zhang"]] from by decide]
  exact loadLoop_missing fsMissing ["sub.zhang"] [] ([] ++ [["main.zhang"]])
    ([] ++ [inclSub]) (by decide)

/-- C3 (amended): a missing or unreadable file at the head of the load queue
aborts the whole load with `Err`; the loader does not record a per-file error
and does not continue with the remaining queued files. -/
theorem load_missing_file_aborts_whole_load (fs : FileSystem) (p : Path)
    (rest visited : List Path) (acc : List Directive) (h : fsLookup fs p = none) :
    loadLoop fs (p :: rest) visited acc = .error .Io :=
  loadLoop_missing fs p rest visited acc h

/-- C3 witness: the amended theorem applied at the second loop iteration of
the concrete missing-include file set. -/
theorem load_missing_file_aborts_whole_load_witness :
    loadLoop fsMissing [["sub.zhang"]] [["main.zhang"]] [inclSub] = .error .Io :=
  load_missing_file_aborts_whole_load fsMissing ["sub.zhang"] [] [["main.zhang"]]
    [inclSub] (by decide)

/-- C4 counterexample: `sort_directives_datetime` does *not* move an entry
without a datetime to the end: sorting `[option, open]` (undated before
dated) returns the list unchanged, with the undated entry still before the
dated one.  (This is exactly the repository's own unit test
`should_keep_original_order_given_none_datetime_and_datetime`.) -/
theorem sort_directives_undated_stays_first :
    sort_directives_datetime [optTitle, openHello] = [optTitle, openHello] ∧
    optTitle.datetime = none ∧ openHello.datetime ≠ none := by
  refine ⟨rfl, rfl, by decide⟩

/-- C4 (amended): an entry without a datetime does not sort to the end.  On
directive lists of at most 20 entries — where Rust's stable `sort_by` is
exactly the insertion sort modelled here — an undated entry compares
`Greater` against everything, stays in place, and acts as a barrier: the two
sides are sorted independently around it.  (For longer slices Rust's merge
sort under this non-total comparator produces a different, unspecified
order; undated entries still need not end up last, but no equation is
claimed there.) -/
theorem sort_directives_datetime_undated_barrier (l₁ l₂ : List Directive)
    (u : Directive) (hu : u.datetime = none)
    (hlen : (l₁ ++ u :: l₂).length ≤ 20) :
    sort_directives_datetime (l₁ ++ u :: l₂) =
      sort_directives_datetime l₁ ++ u :: sort_directives_datetime l₂ := by
  clear hlen
  unfold sort_directives_datetime
  rw [List.foldl_append]
  simp only [List.foldl_cons]
  rw [insertRev_undated u hu]
  have hb := foldl_insert_barrier u hu l₂ []
    (List.foldl (fun acc x => insertRev sortCmp x acc) [] l₁)
  simp only [List.nil_append] at hb
  rw [hb, List.reverse_append]
  simp

/-- C4 witness: the barrier theorem applied to the concrete undated/dated
pair of the counterexample. -/
theorem sort_directives_datetime_undated_barrier_witness :
    sort_directives_datetime ([] ++ optTitle :: [openHello]) =
      sort_directives_datetime [] ++ optTitle :: sort_directives_datetime [openHello] :=
  sort_directives_datetime_undated_barrier [] [openHello] optTitle rfl (by decide)

/-- C5: the parsed `@@` (total) price spec is dropped by
`ZhangParser::transaction_posting` — the assignment `line.price = meta.2` is
commented out with a `todo`, so the resulting `Posting` carries `price =
None` even though the parse tree supplied `Total 10 CNY` (and likewise for a
per-unit `@` price).  The claim (and the spec) say the posting carries the
price so that it can influence balancing. -/
theorem transaction_posting_price_dropped :
    (transaction_posting none acctHello
        (some (⟨1, "BTC"⟩, some (none, none,
          some (SingleTotalPrice.Total ⟨10, "CNY"⟩))))).price = none ∧
    (transaction_posting none acctHello
        (some (⟨1, "BTC"⟩, some (none, none,
          some (SingleTotalPrice.Single ⟨10, "CNY"⟩))))).price = none ∧
    (transaction_posting none acctHello
        (some (⟨1, "BTC"⟩, some (none, none,
          some (SingleTotalPrice.Total ⟨10, "CNY"⟩))))).units = some ⟨1, "BTC"⟩ := by
  refine ⟨rfl, rfl, rfl⟩

/-- C6 counterexample: a transaction metadata block in which the key `"a"`
appears twice keeps only the second pair — `HashMap::insert` overwrites, so
the pair `("a", "1")` is dropped, contradicting ordered-multimap semantics. -/
theorem transaction_meta_duplicate_key_dropped :
    (transactionFrom (.Date 2022 2 22) none none none [] []
        [(none, some ("a", ZhangString.QuoteString "1")),
         (none, some ("a", ZhangString.QuoteString "2"))]).meta =
      [("a", ZhangString.QuoteString "2")] ∧
    ¬ ("a", ZhangString.QuoteString "1") ∈
      (transactionFrom (.Date 2022 2 22) none none none [] []
        [(none, some ("a", ZhangString.QuoteString "1")),
         (none, some ("a", ZhangString.QuoteString "2"))]).meta := by
  decide

/-- C6 (amended): transaction metadata is a `HashMap`; when the same key
appears more than once in the block, the later pair overwrites the earlier
one and only the last value survives — there is no insertion-ordered
multi-value lookup. -/
theorem transaction_meta_last_value_wins (d : Date) (f : Option Flag)
    (p n : Option ZhangString) (tags links : List String) (k : String)
    (v₁ v₂ : ZhangString) :
    (transactionFrom d f p n tags links
        [(none, some (k, v₁)), (none, some (k, v₂))]).meta = [(k, v₂)] := by
  simp [transactionFrom, hashMapInsert]

/-- C7: every load that succeeds puts all directives of the entry file before
any directive of any included file: the merged list returned by the loader
extends the entry file's own directive list. -/
theorem load_entry_directives_first (fs : FileSystem) (entry : Path)
    (endpoint : String) (ds dirs : List Directive) (vis : List Path)
    (hmain : fsLookup fs (entry ++ pathBufFrom endpoint) = some ds)
    (hres : load_with_database fs entry endpoint = .ok (dirs, vis)) :
    ∃ t, dirs = ds ++ t := by
  unfold load_with_database at hres
  rw [loadLoop_new_step fs (entry ++ pathBufFrom endpoint) [] [] [] ds hmain (by simp)]
    at hres
  obtain ⟨t, ht⟩ := loadLoop_acc_prefix fs _ _ _ _ _ hres
  exact ⟨t, by simpa using ht⟩

/-- C7 witness: scenario S6 — the merged list `[option a=1, include "sub",
option b=2]` starts with the entry file's directives `[option a=1, include
"sub"]`. -/
theorem load_entry_directives_first_witness :
    ∃ t, ([optA, inclS6, optB] : List Directive) = [optA, inclS6] ++ t :=
  load_entry_directives_first fsS6 [] "main" [optA, inclS6] [optA, inclS6, optB]
    [["main"], ["sub"]] (by decide) loadS6_eval

/-- C8: on any include-closed file set — cyclic include graphs included —
the loader terminates (the Lean model is a total function, proved by the
loop's own measure) and returns `Ok`, and the merged list is the
concatenation of the directives of the visited files, each visited file
contributing exactly once (`order.Nodup`); a cycle is not an error. -/
theorem load_include_cycle_safe (fs : FileSystem) (entry : Path)
    (endpoint : String) (hclosed : IncludeClosed fs)
    (hentry : (entry ++ pathBufFrom endpoint) ∈ fs.map (fun e => e.1)) :
    ∃ order, load_with_database fs entry endpoint =
        .ok (order.flatMap (fun p => dirsOf fs p), order) ∧ order.Nodup := by
  obtain ⟨newly, hres, _, hnd⟩ := loadLoop_ok_shape fs hclosed
    [entry ++ pathBufFrom endpoint] [] []
    (by
      intro x hx
      rw [List.mem_singleton] at hx
      subst hx
      exact hentry)
  refine ⟨newly, ?_, hnd⟩
  unfold load_with_database
  rw [hres]
  simp

/-- C8 witness: the theorem applied to the concrete two-file include cycle
(`a` includes `b`, `b` includes `a`). -/
theorem load_include_cycle_safe_witness :
    ∃ order, load_with_database fsCyc [] "a" =
        .ok (order.flatMap (fun p => dirsOf fsCyc p), order) ∧ order.Nodup :=
  load_include_cycle_safe fsCyc [] "a" (by decide) (by decide)

/-- C9: `parse_zhang` is not total — `ZhangParser::date_only` calls
`NaiveDate::parse_from_str(…).unwrap()`, so a grammatically well-formed but
out-of-range date such as `2021-02-30` makes chrono return `Err` and the
`.unwrap()` panic instead of producing a `ParseError` (`none` in this model
is that parse failure); a real calendar date parses fine. -/
theorem date_only_out_of_range_panics :
    date_only "2021-02-30" = none ∧
    date_only "2021-02-28" = some (Date.Date 2021 2 28) := by
  constructor <;> decide

/-- C10: whenever `get_postings_inventory` fails (for example with
`TransactionHasMultipleImplicitPosting`), `is_transaction_balanced` swallows
the error and returns `Ok(false)` — the error is never propagated to the
caller. -/
theorem is_transaction_balanced_swallows_inventory_error (opts : LedgerOptions)
    (table : String → Option CommodityRecord) (txn : Transaction) (e : ZhangError)
    (h : get_postings_inventory txn = .error e) :
    is_transaction_balanced opts table txn = .ok false := by
  unfold is_transaction_balanced
  rw [h]

/-- C10 witness: the theorem applied to a concrete transaction with two
implicit postings. -/
theorem is_transaction_balanced_swallows_inventory_error_witness :
    is_transaction_balanced opts0 table0 txnTwoImplicit = .ok false :=
  is_transaction_balanced_swallows_inventory_error opts0 table0 txnTwoImplicit
    .TransactionHasMultipleImplicitPosting (by rfl)

end Zhang
